import Mathlib

/-!
Formalisation of the diffusion image-processing library MA322_BE_lib:
border extension, finite-difference stencil matrices, field-update
operators and the RK4 integrators, modelled over an arbitrary field of
scalars (instantiated with the real numbers where the source takes a
square root, and with the rationals for concrete evaluations).

Arrays are modelled as a shape (rows, cols) together with a total entry
function; entries outside the shape never influence the statements below.
-/

/-- A two-dimensional numeric array: a shape together with a total entry function. -/
structure Arr (α : Type) where
  rows : Nat
  cols : Nat
  entry : Nat → Nat → α

/-- Row i of an array as a 1-row array (numpy row selection used as a stacking operand). -/
def Arr.row {α : Type} (A : Arr α) (i : Nat) : Arr α :=
  ⟨1, A.cols, fun _ j => A.entry i j⟩

/-- Column j of an array as a 1-column array (numpy column selection plus reshape). -/
def Arr.col {α : Type} (A : Arr α) (j : Nat) : Arr α :=
  ⟨A.rows, 1, fun i _ => A.entry i j⟩

/-- Vertical stacking, numpy vstack: rows of A followed by rows of B. -/
def Arr.vstack {α : Type} (A B : Arr α) : Arr α :=
  ⟨A.rows + B.rows, A.cols, fun i j => if i < A.rows then A.entry i j else B.entry (i - A.rows) j⟩

/-- Horizontal stacking, numpy hstack: columns of A followed by columns of B. -/
def Arr.hstack {α : Type} (A B : Arr α) : Arr α :=
  ⟨A.rows, A.cols + B.cols, fun i j => if j < A.cols then A.entry i j else B.entry i (j - A.cols)⟩

/-- Elementwise sum of two arrays of equal shape. -/
def Arr.add {α : Type} [Field α] (A B : Arr α) : Arr α :=
  ⟨A.rows, A.cols, fun i j => A.entry i j + B.entry i j⟩

/-- Scalar times array, elementwise. -/
def Arr.smul {α : Type} [Field α] (s : α) (A : Arr α) : Arr α :=
  ⟨A.rows, A.cols, fun i j => s * A.entry i j⟩

/-- Array divided by a scalar, elementwise. -/
def Arr.sdiv {α : Type} [Field α] (A : Arr α) (s : α) : Arr α :=
  ⟨A.rows, A.cols, fun i j => A.entry i j / s⟩

/-- Matrix product, numpy matmul: sum over the columns of the left factor. -/
def Arr.matmul {α : Type} [Field α] (A B : Arr α) : Arr α :=
  ⟨A.rows, B.cols, fun i j => ∑ k ∈ Finset.range A.cols, A.entry i k * B.entry k j⟩

/-- Matrix transpose. -/
def Arr.transpose {α : Type} (A : Arr α) : Arr α :=
  ⟨A.cols, A.rows, fun i j => A.entry j i⟩

/-- Row slice a..b (numpy A[a:b, :]). -/
def Arr.rowSlice {α : Type} (A : Arr α) (a b : Nat) : Arr α :=
  ⟨b - a, A.cols, fun i j => A.entry (a + i) j⟩

/-- Column slice a..b (numpy A[:, a:b]). -/
def Arr.colSlice {α : Type} (A : Arr α) (a b : Nat) : Arr α :=
  ⟨A.rows, b - a, fun i j => A.entry i (a + j)⟩

/-- Elementwise natural-number power (numpy broadcasting of the power operator). -/
def Arr.pow {α : Type} [Field α] (A : Arr α) (m : Nat) : Arr α :=
  ⟨A.rows, A.cols, fun i j => A.entry i j ^ m⟩

/-- Elementwise application of a scalar function (numpy ufunc such as sqrt). -/
def Arr.map {α : Type} (g : α → α) (A : Arr α) : Arr α :=
  ⟨A.rows, A.cols, fun i j => g (A.entry i j)⟩

/-- The intermediate array of completion after the two vstack statements:
the input with its first row replicated on top and its last row replicated at the bottom. -/
def rowPadded {α : Type} (U : Arr α) : Arr α :=
  Arr.vstack (Arr.vstack (U.row 0) U) (U.row (U.rows - 1))

/-- Border extension of a 2D array by replicating its border values, following the
source statement by statement: two vstack steps for the rows, then two hstack
steps for the columns, the last one taking the column of index cols of the
already left-extended array. -/
def completion {α : Type} (U : Arr α) : Arr α :=
  let c := U.cols
  let Ut := rowPadded U
  let Ut := Arr.hstack (Ut.col 0) Ut
  let Ut := Arr.hstack Ut (Ut.col c)
  Ut

/-- Finite difference matrix for diffusion: the source starts from the rectangular
identity (ones on the diagonal) and overwrites the two superdiagonals with -2 and 1. -/
def Dmat (α : Type) [Field α] (n : Nat) : Arr α :=
  ⟨n, n + 2, fun i j => if i + 1 = j then -2 else if i + 2 = j then 1 else if i = j then 1 else 0⟩

/-- Finite difference matrix for the gradient: -0.5 on the diagonal, 0.5 two to the right. -/
def Dgrad (α : Type) [Field α] (n : Nat) : Arr α :=
  ⟨n, n + 2, fun i j => if i = j then -(1/2) else if i + 2 = j then 1/2 else 0⟩

/-- Custom finite difference matrix for brightness: -5 on the diagonal, 12 two to the right. -/
def Dluminosite (α : Type) [Field α] (n : Nat) : Arr α :=
  ⟨n, n + 2, fun i j => if i = j then -5 else if i + 2 = j then 12 else 0⟩

/-- Random difference matrix: every entry is a fresh draw of random.randint(-2, 2),
modelled by an ambient draw function giving the value drawn for each position. -/
def DPdeGalles (α : Type) [Field α] (draw : Nat → Nat → α) (n : Nat) : Arr α :=
  ⟨n, n + 2, fun i j => draw i j⟩

/-- Dmat with the dimension taken as a signed integer: numpy rejects negative
dimensions (np.eye raises on a negative axis length), so the builder fails
exactly when n is negative; at n = 0 it returns the empty (0, 2) matrix. -/
def DmatChecked (α : Type) [Field α] (n : Int) : Option (Arr α) :=
  if n < 0 then none else some (Dmat α n.toNat)

/-- Dgrad with the dimension taken as a signed integer (np.zeros rejects a negative axis). -/
def DgradChecked (α : Type) [Field α] (n : Int) : Option (Arr α) :=
  if n < 0 then none else some (Dgrad α n.toNat)

/-- Dluminosite with the dimension taken as a signed integer. -/
def DluminositeChecked (α : Type) [Field α] (n : Int) : Option (Arr α) :=
  if n < 0 then none else some (Dluminosite α n.toNat)

/-- DPdeGalles with the dimension taken as a signed integer. -/
def DPdeGallesChecked (α : Type) [Field α] (draw : Nat → Nat → α) (n : Int) : Option (Arr α) :=
  if n < 0 then none else some (DPdeGalles α draw n.toNat)

/-- Diffusion update: Dmat(l) applied to the interior columns of the padded field,
plus the interior rows of the padded field times the transpose of Dmat(c). -/
def f {α : Type} [Field α] (t : α) (U : Arr α) : Arr α :=
  Arr.add
    (Arr.matmul (Dmat α U.rows) (Arr.colSlice (completion U) 1 (U.cols + 1)))
    (Arr.matmul (Arr.rowSlice (completion U) 1 (U.rows + 1)) (Arr.transpose (Dmat α U.cols)))

/-- Gradient norm update: np.sqrt of the sum of the squares of the two directional
products; the square root is modelled as an explicit scalar function, instantiated
with the real square root in the theorems. -/
def fgrad {α : Type} [Field α] (rsqrt : α → α) (t : α) (U : Arr α) : Arr α :=
  Arr.map rsqrt (Arr.add
    (Arr.pow (Arr.matmul (Dgrad α U.rows) (Arr.colSlice (completion U) 1 (U.cols + 1))) 2)
    (Arr.pow (Arr.matmul (Arr.rowSlice (completion U) 1 (U.rows + 1))
      (Arr.transpose (Dgrad α U.cols))) 2))

/-- Laplacian norm update: as fgrad but with the diffusion stencil Dmat. -/
def flaplace {α : Type} [Field α] (rsqrt : α → α) (t : α) (U : Arr α) : Arr α :=
  Arr.map rsqrt (Arr.add
    (Arr.pow (Arr.matmul (Dmat α U.rows) (Arr.colSlice (completion U) 1 (U.cols + 1))) 2)
    (Arr.pow (Arr.matmul (Arr.rowSlice (completion U) 1 (U.rows + 1))
      (Arr.transpose (Dmat α U.cols))) 2))

/-- Brightness modification update: as f but with the stencil Dluminosite. -/
def fluminosite {α : Type} [Field α] (t : α) (U : Arr α) : Arr α :=
  Arr.add
    (Arr.matmul (Dluminosite α U.rows) (Arr.colSlice (completion U) 1 (U.cols + 1)))
    (Arr.matmul (Arr.rowSlice (completion U) 1 (U.rows + 1))
      (Arr.transpose (Dluminosite α U.cols)))

/-- Modified diffusion with fourth power: the sum of the fourth powers of the two
directional products, squared. -/
def fmod2 {α : Type} [Field α] (t : α) (U : Arr α) : Arr α :=
  Arr.pow (Arr.add
    (Arr.pow (Arr.matmul (Dmat α U.rows) (Arr.colSlice (completion U) 1 (U.cols + 1))) 4)
    (Arr.pow (Arr.matmul (Arr.rowSlice (completion U) 1 (U.rows + 1))
      (Arr.transpose (Dmat α U.cols))) 4)) 2

/-- Anisotropic diffusion function of the source, whose body coincides with f. -/
def fani {α : Type} [Field α] (t : α) (U : Arr α) : Arr α :=
  Arr.add
    (Arr.matmul (Dmat α U.rows) (Arr.colSlice (completion U) 1 (U.cols + 1)))
    (Arr.matmul (Arr.rowSlice (completion U) 1 (U.rows + 1)) (Arr.transpose (Dmat α U.cols)))

/-- A three-dimensional image array: shape (rows, cols, depth) with a total entry function. -/
structure Img (α : Type) where
  rows : Nat
  cols : Nat
  depth : Nat
  entry : Nat → Nat → Nat → α

/-- Channel k of an image as a 2D array. -/
def Img.channel {α : Type} (U : Img α) (k : Nat) : Arr α :=
  ⟨U.rows, U.cols, fun i j => U.entry i j k⟩

/-- One RK4 step of the loop body shared by the four integrators of the source. -/
def rk4step {α : Type} [Field α] (g : α → Arr α → Arr α) (t0 h : α) (U : Arr α) : Arr α :=
  let k1 := Arr.smul h (g t0 U)
  let k2 := Arr.smul h (g (t0 + h / 2) (Arr.add U (Arr.sdiv k1 2)))
  let k3 := Arr.smul h (g (t0 + h / 2) (Arr.add U (Arr.sdiv k2 2)))
  let k4 := Arr.smul h (g (t0 + h) (Arr.add U k3))
  Arr.add U (Arr.smul (1/6)
    (Arr.add (Arr.add (Arr.add k1 (Arr.smul 2 k2)) (Arr.smul 2 k3)) k4))

/-- The RK4 step iterated: the inner loop of the integrators run for n iterations. -/
def rk4iter {α : Type} [Field α] (g : α → Arr α → Arr α) (t0 h : α) : Nat → Arr α → Arr α
  | 0, U => U
  | n + 1, U => rk4iter g t0 h n (rk4step g t0 h U)

/-- RK4 integration applied to each of the first three channels of an image.
The iteration count is a signed integer, as in the source, and a Python range
over a negative count is empty, hence the toNat. The output starts as an array
of zeros of the input shape and the loop writes channels 0, 1, 2. -/
def RKimage {α : Type} [Field α] (g : α → Arr α → Arr α) (U0 : Img α) (t0 h : α)
    (nbiter : Int) : Img α :=
  ⟨U0.rows, U0.cols, U0.depth, fun i j k =>
    if k < 3 then (rk4iter g t0 h nbiter.toNat (U0.channel k)).entry i j else 0⟩

/-- Integrator for the gradient filter; its source body is identical to RKimage. -/
def RKimage_normgrad {α : Type} [Field α] (g : α → Arr α → Arr α) (U0 : Img α) (t0 h : α)
    (nbiter : Int) : Img α :=
  ⟨U0.rows, U0.cols, U0.depth, fun i j k =>
    if k < 3 then (rk4iter g t0 h nbiter.toNat (U0.channel k)).entry i j else 0⟩

/-- Integrator for the Laplacian filter; its source body is identical to RKimage. -/
def RKimage_normlaplace {α : Type} [Field α] (g : α → Arr α → Arr α) (U0 : Img α) (t0 h : α)
    (nbiter : Int) : Img α :=
  ⟨U0.rows, U0.cols, U0.depth, fun i j k =>
    if k < 3 then (rk4iter g t0 h nbiter.toNat (U0.channel k)).entry i j else 0⟩

/-- Integrator for the brightness filter; its source body is identical to RKimage. -/
def RKimage_luminosite {α : Type} [Field α] (g : α → Arr α → Arr α) (U0 : Img α) (t0 h : α)
    (nbiter : Int) : Img α :=
  ⟨U0.rows, U0.cols, U0.depth, fun i j k =>
    if k < 3 then (rk4iter g t0 h nbiter.toNat (U0.channel k)).entry i j else 0⟩

/-- Unfolding lemma for the entries of the row-padded intermediate array. -/
theorem rowPadded_entry {α : Type} (U : Arr α) (i j : Nat) :
    (rowPadded U).entry i j =
      if i < 1 + U.rows then (if i < 1 then U.entry 0 j else U.entry (i - 1) j)
      else U.entry (U.rows - 1) j := rfl

/-- Unfolding lemma for the entries of the border extension, in terms of the
row-padded intermediate array. -/
theorem completion_entry {α : Type} (U : Arr α) (i j : Nat) :
    (completion U).entry i j =
      if j < 1 + U.cols then
        (if j < 1 then (rowPadded U).entry i 0 else (rowPadded U).entry i (j - 1))
      else
        (if U.cols < 1 then (rowPadded U).entry i 0
         else (rowPadded U).entry i (U.cols - 1)) := rfl

/-- The recursive iteration equation of the inner RK4 loop. -/
theorem rk4iter_succ {α : Type} [Field α] (g : α → Arr α → Arr α) (t0 h : α)
    (n : Nat) (U : Arr α) :
    rk4iter g t0 h (n + 1) U = rk4iter g t0 h n (rk4step g t0 h U) := rfl

/-- The inner RK4 loop as an iterate of the single step. -/
theorem rk4iter_eq_iterate {α : Type} [Field α] (g : α → Arr α → Arr α) (t0 h : α)
    (n : Nat) (U : Arr α) :
    rk4iter g t0 h n U = (rk4step g t0 h)^[n] U := by
  induction n generalizing U with
  | zero => rfl
  | succ n ih =>
    rw [rk4iter_succ, ih]
    exact (Function.iterate_succ_apply _ _ _).symm

/-- A small concrete operator for concrete evaluations: the identity in the field argument. -/
def idOp : ℚ → Arr ℚ → Arr ℚ := fun _ U => U

/-- A small concrete rational image of shape (1, 1, 3). -/
def testImg : Img ℚ :=
  ⟨1, 1, 3, fun i j k => ((i + j + k : Nat) : ℚ)⟩

/-- A small concrete rational image of shape (1, 1, 3) with all entries one. -/
def onesImg : Img ℚ :=
  ⟨1, 1, 3, fun _ _ _ => 1⟩

/-- A small concrete real array of shape (1, 1). -/
def oneArrR : Arr ℝ :=
  ⟨1, 1, fun _ _ => 0⟩

/-- C5: for every operator variant, every image of shape (l, c, 3) and every t0 and h,
integrating with nbiter = 0 returns an image exactly equal to the input: the shape is
unchanged and every entry of every channel is returned unchanged. -/
theorem RKimage_zero_iteration {α : Type} [Field α] (g : α → Arr α → Arr α) (U0 : Img α)
    (t0 h : α) (hd : U0.depth = 3) :
    (RKimage g U0 t0 h 0).rows = U0.rows ∧ (RKimage g U0 t0 h 0).cols = U0.cols ∧
    (RKimage g U0 t0 h 0).depth = U0.depth ∧
    ∀ i j k, k < U0.depth → (RKimage g U0 t0 h 0).entry i j k = U0.entry i j k := by
  refine ⟨rfl, rfl, rfl, fun i j k hk => ?_⟩
  have hk3 : k < 3 := hd ▸ hk
  show (if k < 3 then (rk4iter g t0 h (Int.toNat 0) (U0.channel k)).entry i j else 0) =
    U0.entry i j k
  rw [if_pos hk3]
  rfl

theorem RKimage_zero_iteration_witness :
    testImg.depth = 3 ∧
    ((RKimage idOp testImg 0 1 0).rows = testImg.rows ∧
     (RKimage idOp testImg 0 1 0).cols = testImg.cols ∧
     (RKimage idOp testImg 0 1 0).depth = testImg.depth ∧
     ∀ i j k, k < testImg.depth →
       (RKimage idOp testImg 0 1 0).entry i j k = testImg.entry i j k) :=
  ⟨rfl, RKimage_zero_iteration idOp testImg 0 1 rfl⟩

/-- C10: the four integrators RKimage, RKimage_normgrad, RKimage_normlaplace and
RKimage_luminosite compute the same function: on identical arguments they return
identical outputs, so the filter variant is determined solely by the operator passed in. -/
theorem integrators_agree {α : Type} [Field α] (g : α → Arr α → Arr α) (U0 : Img α)
    (t0 h : α) (nbiter : Int) :
    RKimage g U0 t0 h nbiter = RKimage_normgrad g U0 t0 h nbiter ∧
    RKimage g U0 t0 h nbiter = RKimage_normlaplace g U0 t0 h nbiter ∧
    RKimage g U0 t0 h nbiter = RKimage_luminosite g U0 t0 h nbiter :=
  ⟨rfl, rfl, rfl⟩

/-- C6: every supported field-update operator variant returns an array of exactly
the same shape (rows, cols) as its input field. -/
theorem operator_shape_preservation (t : ℝ) (U : Arr ℝ) (hL : 1 ≤ U.rows) (hC : 1 ≤ U.cols) :
    ((f t U).rows = U.rows ∧ (f t U).cols = U.cols) ∧
    ((fgrad Real.sqrt t U).rows = U.rows ∧ (fgrad Real.sqrt t U).cols = U.cols) ∧
    ((flaplace Real.sqrt t U).rows = U.rows ∧ (flaplace Real.sqrt t U).cols = U.cols) ∧
    ((fluminosite t U).rows = U.rows ∧ (fluminosite t U).cols = U.cols) ∧
    ((fmod2 t U).rows = U.rows ∧ (fmod2 t U).cols = U.cols) ∧
    ((fani t U).rows = U.rows ∧ (fani t U).cols = U.cols) :=
  ⟨⟨rfl, rfl⟩, ⟨rfl, rfl⟩, ⟨rfl, rfl⟩, ⟨rfl, rfl⟩, ⟨rfl, rfl⟩, ⟨rfl, rfl⟩⟩

theorem operator_shape_preservation_witness :
    1 ≤ oneArrR.rows ∧ 1 ≤ oneArrR.cols ∧
    (((f 0 oneArrR).rows = oneArrR.rows ∧ (f 0 oneArrR).cols = oneArrR.cols) ∧
     ((fgrad Real.sqrt 0 oneArrR).rows = oneArrR.rows ∧
      (fgrad Real.sqrt 0 oneArrR).cols = oneArrR.cols) ∧
     ((flaplace Real.sqrt 0 oneArrR).rows = oneArrR.rows ∧
      (flaplace Real.sqrt 0 oneArrR).cols = oneArrR.cols) ∧
     ((fluminosite 0 oneArrR).rows = oneArrR.rows ∧
      (fluminosite 0 oneArrR).cols = oneArrR.cols) ∧
     ((fmod2 0 oneArrR).rows = oneArrR.rows ∧ (fmod2 0 oneArrR).cols = oneArrR.cols) ∧
     ((fani 0 oneArrR).rows = oneArrR.rows ∧ (fani 0 oneArrR).cols = oneArrR.cols)) :=
  ⟨by decide, by decide, operator_shape_preservation 0 oneArrR (by decide) (by decide)⟩

/-- C9: every entry of the gradient-norm and Laplacian-norm operator outputs is
non-negative, being the real square root of a sum of squares. -/
theorem norm_operators_nonneg (t : ℝ) (U : Arr ℝ) (hL : 1 ≤ U.rows) (hC : 1 ≤ U.cols)
    (i j : Nat) (hi : i < U.rows) (hj : j < U.cols) :
    0 ≤ (fgrad Real.sqrt t U).entry i j ∧ 0 ≤ (flaplace Real.sqrt t U).entry i j :=
  ⟨Real.sqrt_nonneg _, Real.sqrt_nonneg _⟩

theorem norm_operators_nonneg_witness :
    1 ≤ oneArrR.rows ∧ 1 ≤ oneArrR.cols ∧ 0 < oneArrR.rows ∧ 0 < oneArrR.cols ∧
    (0 ≤ (fgrad Real.sqrt 0 oneArrR).entry 0 0 ∧
     0 ≤ (flaplace Real.sqrt 0 oneArrR).entry 0 0) :=
  ⟨by decide, by decide, by decide, by decide,
    norm_operators_nonneg 0 oneArrR (by decide) (by decide) 0 0 (by decide) (by decide)⟩

/-- C2: for every 2D field of shape (L, C) with L, C >= 1, the border extension has
shape (L+2, C+2); its row 0 replicates row 0 of the input and its row L+1 replicates
row L-1; the columns are padded after the rows, so its column 0 equals column 0 of
the row-padded array and its column C+1 equals the last column (index C in the
left-extended array at the point where the source reads it) of the row-padded array;
the four corner cells equal the corresponding original corner values. -/
theorem completion_border_replication {α : Type} (U : Arr α)
    (hL : 1 ≤ U.rows) (hC : 1 ≤ U.cols) :
    (completion U).rows = U.rows + 2 ∧ (completion U).cols = U.cols + 2 ∧
    (∀ j, j < U.cols → (completion U).entry 0 (j + 1) = U.entry 0 j) ∧
    (∀ j, j < U.cols → (completion U).entry (U.rows + 1) (j + 1) = U.entry (U.rows - 1) j) ∧
    (∀ i, i < U.rows + 2 → (completion U).entry i 0 = (rowPadded U).entry i 0) ∧
    (∀ i, i < U.rows + 2 →
      (completion U).entry i (U.cols + 1) = (rowPadded U).entry i (U.cols - 1)) ∧
    (completion U).entry 0 0 = U.entry 0 0 ∧
    (completion U).entry 0 (U.cols + 1) = U.entry 0 (U.cols - 1) ∧
    (completion U).entry (U.rows + 1) 0 = U.entry (U.rows - 1) 0 ∧
    (completion U).entry (U.rows + 1) (U.cols + 1) = U.entry (U.rows - 1) (U.cols - 1) := by
  refine ⟨?_, ?_, ?_, ?_, ?_, ?_, ?_, ?_, ?_, ?_⟩
  · show 1 + U.rows + 1 = U.rows + 2
    omega
  · show 1 + U.cols + 1 = U.cols + 2
    omega
  · intro j hj
    rw [completion_entry, if_pos (by omega : j + 1 < 1 + U.cols),
      if_neg (by omega : ¬ j + 1 < 1), Nat.add_sub_cancel, rowPadded_entry,
      if_pos (by omega : 0 < 1 + U.rows), if_pos (by omega : 0 < 1)]
  · intro j hj
    rw [completion_entry, if_pos (by omega : j + 1 < 1 + U.cols),
      if_neg (by omega : ¬ j + 1 < 1), Nat.add_sub_cancel, rowPadded_entry,
      if_neg (by omega : ¬ U.rows + 1 < 1 + U.rows)]
  · intro i hi
    rw [completion_entry, if_pos (by omega : 0 < 1 + U.cols), if_pos (by omega : 0 < 1)]
  · intro i hi
    rw [completion_entry, if_neg (by omega : ¬ U.cols + 1 < 1 + U.cols),
      if_neg (by omega : ¬ U.cols < 1)]
  · rw [completion_entry, if_pos (by omega : 0 < 1 + U.cols), if_pos (by omega : 0 < 1),
      rowPadded_entry, if_pos (by omega : 0 < 1 + U.rows), if_pos (by omega : 0 < 1)]
  · rw [completion_entry, if_neg (by omega : ¬ U.cols + 1 < 1 + U.cols),
      if_neg (by omega : ¬ U.cols < 1), rowPadded_entry,
      if_pos (by omega : 0 < 1 + U.rows), if_pos (by omega : 0 < 1)]
  · rw [completion_entry, if_pos (by omega : 0 < 1 + U.cols), if_pos (by omega : 0 < 1),
      rowPadded_entry, if_neg (by omega : ¬ U.rows + 1 < 1 + U.rows)]
  · rw [completion_entry, if_neg (by omega : ¬ U.cols + 1 < 1 + U.cols),
      if_neg (by omega : ¬ U.cols < 1), rowPadded_entry,
      if_neg (by omega : ¬ U.rows + 1 < 1 + U.rows)]

theorem completion_border_replication_witness :
    1 ≤ oneArrR.rows ∧ 1 ≤ oneArrR.cols ∧
    ((completion oneArrR).rows = oneArrR.rows + 2 ∧
     (completion oneArrR).cols = oneArrR.cols + 2 ∧
     (∀ j, j < oneArrR.cols → (completion oneArrR).entry 0 (j + 1) = oneArrR.entry 0 j) ∧
     (∀ j, j < oneArrR.cols →
       (completion oneArrR).entry (oneArrR.rows + 1) (j + 1) = oneArrR.entry (oneArrR.rows - 1) j) ∧
     (∀ i, i < oneArrR.rows + 2 →
       (completion oneArrR).entry i 0 = (rowPadded oneArrR).entry i 0) ∧
     (∀ i, i < oneArrR.rows + 2 →
       (completion oneArrR).entry i (oneArrR.cols + 1) =
         (rowPadded oneArrR).entry i (oneArrR.cols - 1)) ∧
     (completion oneArrR).entry 0 0 = oneArrR.entry 0 0 ∧
     (completion oneArrR).entry 0 (oneArrR.cols + 1) = oneArrR.entry 0 (oneArrR.cols - 1) ∧
     (completion oneArrR).entry (oneArrR.rows + 1) 0 = oneArrR.entry (oneArrR.rows - 1) 0 ∧
     (completion oneArrR).entry (oneArrR.rows + 1) (oneArrR.cols + 1) =
       oneArrR.entry (oneArrR.rows - 1) (oneArrR.cols - 1)) :=
  ⟨by decide, by decide, completion_border_replication oneArrR (by decide) (by decide)⟩

/-- C3: for every positive n, each stencil builder returns an (n, n+2) matrix whose
row i carries exactly the per-variant pattern and zeros elsewhere: Dmat has 1, -2, 1
at columns i, i+1, i+2; Dgrad has -1/2, 0, 1/2 there; Dluminosite has -5, 0, 12 there. -/
theorem stencil_matrix_entries {α : Type} [Field α] (n : Nat) (hn : 0 < n) :
    ((Dmat α n).rows = n ∧ (Dmat α n).cols = n + 2 ∧
      ∀ i, i < n → ∀ j, j < n + 2 → (Dmat α n).entry i j =
        if j = i then 1 else if j = i + 1 then -2 else if j = i + 2 then 1 else 0) ∧
    ((Dgrad α n).rows = n ∧ (Dgrad α n).cols = n + 2 ∧
      ∀ i, i < n → ∀ j, j < n + 2 → (Dgrad α n).entry i j =
        if j = i then -(1/2) else if j = i + 1 then 0 else if j = i + 2 then 1/2 else 0) ∧
    ((Dluminosite α n).rows = n ∧ (Dluminosite α n).cols = n + 2 ∧
      ∀ i, i < n → ∀ j, j < n + 2 → (Dluminosite α n).entry i j =
        if j = i then -5 else if j = i + 1 then 0 else if j = i + 2 then 12 else 0) := by
  refine ⟨⟨rfl, rfl, fun i hi j hj => ?_⟩, ⟨rfl, rfl, fun i hi j hj => ?_⟩,
    ⟨rfl, rfl, fun i hi j hj => ?_⟩⟩
  · show (if i + 1 = j then (-2 : α) else if i + 2 = j then 1 else if i = j then 1 else 0) = _
    split_ifs <;> first | rfl | omega
  · show (if i = j then -(1/2 : α) else if i + 2 = j then 1/2 else 0) = _
    split_ifs <;> first | rfl | omega
  · show (if i = j then (-5 : α) else if i + 2 = j then 12 else 0) = _
    split_ifs <;> first | rfl | omega

theorem stencil_matrix_entries_witness :
    0 < 1 ∧
    (((Dmat ℚ 1).rows = 1 ∧ (Dmat ℚ 1).cols = 1 + 2 ∧
      ∀ i, i < 1 → ∀ j, j < 1 + 2 → (Dmat ℚ 1).entry i j =
        if j = i then 1 else if j = i + 1 then -2 else if j = i + 2 then 1 else 0) ∧
     ((Dgrad ℚ 1).rows = 1 ∧ (Dgrad ℚ 1).cols = 1 + 2 ∧
      ∀ i, i < 1 → ∀ j, j < 1 + 2 → (Dgrad ℚ 1).entry i j =
        if j = i then -(1/2) else if j = i + 1 then 0 else if j = i + 2 then 1/2 else 0) ∧
     ((Dluminosite ℚ 1).rows = 1 ∧ (Dluminosite ℚ 1).cols = 1 + 2 ∧
      ∀ i, i < 1 → ∀ j, j < 1 + 2 → (Dluminosite ℚ 1).entry i j =
        if j = i then -5 else if j = i + 1 then 0 else if j = i + 2 then 12 else 0)) :=
  ⟨by decide, @stencil_matrix_entries ℚ _ 1 (by decide)⟩

/-- C1: for every field-update operator g, every image of shape (l, c, 3), every t0,
h and nbiter >= 0, the integrator advances each of the three channels independently
for exactly nbiter iterations of the classical RK4 step k1 = h g(t0, U),
k2 = h g(t0 + h/2, U + k1/2), k3 = h g(t0 + h/2, U + k2/2), k4 = h g(t0 + h, U + k3),
U_next = U + (1/6)(k1 + 2 k2 + 2 k3 + k4), and assembles the per-channel results
into an output image of the original shape. -/
theorem RKimage_rk4_iteration {α : Type} [Field α] (g : α → Arr α → Arr α) (U0 : Img α)
    (t0 h : α) (nbiter : Int) (hn : 0 ≤ nbiter) (hd : U0.depth = 3) :
    (RKimage g U0 t0 h nbiter).rows = U0.rows ∧
    (RKimage g U0 t0 h nbiter).cols = U0.cols ∧
    (RKimage g U0 t0 h nbiter).depth = U0.depth ∧
    ∀ k, k < 3 → ∀ i j, (RKimage g U0 t0 h nbiter).entry i j k =
      ((fun U =>
        let k1 := Arr.smul h (g t0 U)
        let k2 := Arr.smul h (g (t0 + h / 2) (Arr.add U (Arr.sdiv k1 2)))
        let k3 := Arr.smul h (g (t0 + h / 2) (Arr.add U (Arr.sdiv k2 2)))
        let k4 := Arr.smul h (g (t0 + h) (Arr.add U k3))
        Arr.add U (Arr.smul (1/6)
          (Arr.add (Arr.add (Arr.add k1 (Arr.smul 2 k2)) (Arr.smul 2 k3)) k4)))^[nbiter.toNat]
        (U0.channel k)).entry i j := by
  refine ⟨rfl, rfl, rfl, fun k hk i j => ?_⟩
  show (if k < 3 then (rk4iter g t0 h nbiter.toNat (U0.channel k)).entry i j else 0) = _
  rw [if_pos hk, rk4iter_eq_iterate]
  rfl

theorem RKimage_rk4_iteration_witness :
    (0 : Int) ≤ 2 ∧ testImg.depth = 3 ∧
    ((RKimage idOp testImg 0 1 2).rows = testImg.rows ∧
     (RKimage idOp testImg 0 1 2).cols = testImg.cols ∧
     (RKimage idOp testImg 0 1 2).depth = testImg.depth ∧
     ∀ k, k < 3 → ∀ i j, (RKimage idOp testImg 0 1 2).entry i j k =
       ((fun U =>
         let k1 := Arr.smul (1 : ℚ) (idOp 0 U)
         let k2 := Arr.smul (1 : ℚ) (idOp (0 + 1 / 2) (Arr.add U (Arr.sdiv k1 2)))
         let k3 := Arr.smul (1 : ℚ) (idOp (0 + 1 / 2) (Arr.add U (Arr.sdiv k2 2)))
         let k4 := Arr.smul (1 : ℚ) (idOp (0 + 1) (Arr.add U k3))
         Arr.add U (Arr.smul (1/6)
           (Arr.add (Arr.add (Arr.add k1 (Arr.smul 2 k2)) (Arr.smul 2 k3)) k4)))^[(2 : Int).toNat]
         (testImg.channel k)).entry i j) :=
  ⟨by decide, rfl, RKimage_rk4_iteration idOp testImg 0 1 2 (by decide) rfl⟩

/-- C4: writing A for the product of the row stencil with the interior columns of the
padded field and B for the product of the interior rows of the padded field with the
transposed column stencil, f returns A + B with the diffusion stencil, fgrad and
flaplace return sqrt(A^2 + B^2) elementwise with the gradient and diffusion stencils
respectively, and fmod2 returns (A^4 + B^4)^2 elementwise with the diffusion stencil. -/
theorem operator_combination_formulas (t : ℝ) (U : Arr ℝ) (hL : 1 ≤ U.rows) (hC : 1 ≤ U.cols) :
    (∀ i j, (f t U).entry i j =
      (∑ k ∈ Finset.range (U.rows + 2), (Dmat ℝ U.rows).entry i k * (completion U).entry k (1 + j)) +
      (∑ k ∈ Finset.range (U.cols + 2), (completion U).entry (1 + i) k * (Dmat ℝ U.cols).entry j k)) ∧
    (∀ i j, (fgrad Real.sqrt t U).entry i j = Real.sqrt (
      (∑ k ∈ Finset.range (U.rows + 2), (Dgrad ℝ U.rows).entry i k * (completion U).entry k (1 + j)) ^ 2 +
      (∑ k ∈ Finset.range (U.cols + 2), (completion U).entry (1 + i) k * (Dgrad ℝ U.cols).entry j k) ^ 2)) ∧
    (∀ i j, (flaplace Real.sqrt t U).entry i j = Real.sqrt (
      (∑ k ∈ Finset.range (U.rows + 2), (Dmat ℝ U.rows).entry i k * (completion U).entry k (1 + j)) ^ 2 +
      (∑ k ∈ Finset.range (U.cols + 2), (completion U).entry (1 + i) k * (Dmat ℝ U.cols).entry j k) ^ 2)) ∧
    (∀ i j, (fmod2 t U).entry i j =
      ((∑ k ∈ Finset.range (U.rows + 2), (Dmat ℝ U.rows).entry i k * (completion U).entry k (1 + j)) ^ 4 +
       (∑ k ∈ Finset.range (U.cols + 2), (completion U).entry (1 + i) k * (Dmat ℝ U.cols).entry j k) ^ 4) ^ 2) := by
  have hcc : (completion U).cols = U.cols + 2 := by
    show 1 + U.cols + 1 = U.cols + 2
    omega
  refine ⟨fun i j => ?_, fun i j => ?_, fun i j => ?_, fun i j => ?_⟩
  · show (∑ k ∈ Finset.range (U.rows + 2),
        (Dmat ℝ U.rows).entry i k * (completion U).entry k (1 + j)) +
      (∑ k ∈ Finset.range ((completion U).cols),
        (completion U).entry (1 + i) k * (Dmat ℝ U.cols).entry j k) = _
    rw [hcc]
  · show Real.sqrt (
      (∑ k ∈ Finset.range (U.rows + 2),
        (Dgrad ℝ U.rows).entry i k * (completion U).entry k (1 + j)) ^ 2 +
      (∑ k ∈ Finset.range ((completion U).cols),
        (completion U).entry (1 + i) k * (Dgrad ℝ U.cols).entry j k) ^ 2) = _
    rw [hcc]
  · show Real.sqrt (
      (∑ k ∈ Finset.range (U.rows + 2),
        (Dmat ℝ U.rows).entry i k * (completion U).entry k (1 + j)) ^ 2 +
      (∑ k ∈ Finset.range ((completion U).cols),
        (completion U).entry (1 + i) k * (Dmat ℝ U.cols).entry j k) ^ 2) = _
    rw [hcc]
  · show ((∑ k ∈ Finset.range (U.rows + 2),
        (Dmat ℝ U.rows).entry i k * (completion U).entry k (1 + j)) ^ 4 +
      (∑ k ∈ Finset.range ((completion U).cols),
        (completion U).entry (1 + i) k * (Dmat ℝ U.cols).entry j k) ^ 4) ^ 2 = _
    rw [hcc]

theorem operator_combination_formulas_witness :
    1 ≤ oneArrR.rows ∧ 1 ≤ oneArrR.cols ∧
    ((∀ i j, (f 0 oneArrR).entry i j =
      (∑ k ∈ Finset.range (oneArrR.rows + 2),
        (Dmat ℝ oneArrR.rows).entry i k * (completion oneArrR).entry k (1 + j)) +
      (∑ k ∈ Finset.range (oneArrR.cols + 2),
        (completion oneArrR).entry (1 + i) k * (Dmat ℝ oneArrR.cols).entry j k)) ∧
     (∀ i j, (fgrad Real.sqrt 0 oneArrR).entry i j = Real.sqrt (
      (∑ k ∈ Finset.range (oneArrR.rows + 2),
        (Dgrad ℝ oneArrR.rows).entry i k * (completion oneArrR).entry k (1 + j)) ^ 2 +
      (∑ k ∈ Finset.range (oneArrR.cols + 2),
        (completion oneArrR).entry (1 + i) k * (Dgrad ℝ oneArrR.cols).entry j k) ^ 2)) ∧
     (∀ i j, (flaplace Real.sqrt 0 oneArrR).entry i j = Real.sqrt (
      (∑ k ∈ Finset.range (oneArrR.rows + 2),
        (Dmat ℝ oneArrR.rows).entry i k * (completion oneArrR).entry k (1 + j)) ^ 2 +
      (∑ k ∈ Finset.range (oneArrR.cols + 2),
        (completion oneArrR).entry (1 + i) k * (Dmat ℝ oneArrR.cols).entry j k) ^ 2)) ∧
     (∀ i j, (fmod2 0 oneArrR).entry i j =
      ((∑ k ∈ Finset.range (oneArrR.rows + 2),
        (Dmat ℝ oneArrR.rows).entry i k * (completion oneArrR).entry k (1 + j)) ^ 4 +
       (∑ k ∈ Finset.range (oneArrR.cols + 2),
        (completion oneArrR).entry (1 + i) k * (Dmat ℝ oneArrR.cols).entry j k) ^ 4) ^ 2)) :=
  ⟨by decide, by decide, operator_combination_formulas 0 oneArrR (by decide) (by decide)⟩

/-- C7 counterexample: at dimension n = 0, which the claim covers through n <= 0,
every stencil builder returns a matrix instead of failing: numpy accepts a zero
axis length, so each builder returns the empty matrix of shape (0, 2). -/
theorem stencil_zero_dim_returns_matrix :
    DmatChecked ℚ 0 = some (Dmat ℚ 0) ∧ (Dmat ℚ 0).rows = 0 ∧ (Dmat ℚ 0).cols = 2 ∧
    DgradChecked ℚ 0 = some (Dgrad ℚ 0) ∧
    DluminositeChecked ℚ 0 = some (Dluminosite ℚ 0) ∧
    DPdeGallesChecked ℚ (fun _ _ => 0) 0 = some (DPdeGalles ℚ (fun _ _ => 0) 0) :=
  ⟨rfl, rfl, rfl, rfl, rfl, rfl⟩

/-- C7 amended: every stencil matrix builder fails exactly on strictly negative
dimensions, where numpy rejects a negative axis length; at n = 0 it instead
returns the empty (0, 2) matrix. -/
theorem stencil_negative_dim_fails {α : Type} [Field α] (draw : Nat → Nat → α)
    (n : Int) (hn : n < 0) :
    DmatChecked α n = none ∧ DgradChecked α n = none ∧
    DluminositeChecked α n = none ∧ DPdeGallesChecked α draw n = none := by
  refine ⟨?_, ?_, ?_, ?_⟩ <;> exact if_pos hn

theorem stencil_negative_dim_fails_witness :
    (-1 : Int) < 0 ∧
    (DmatChecked ℚ (-1) = none ∧ DgradChecked ℚ (-1) = none ∧
     DluminositeChecked ℚ (-1) = none ∧ DPdeGallesChecked ℚ (fun _ _ => 0) (-1) = none) :=
  ⟨by decide, stencil_negative_dim_fails (fun _ _ => (0 : ℚ)) (-1) (by decide)⟩

/-- C8 counterexample: called with nbiter = -1 the integrator does not fail: the
loop range over a negative count is empty, so it returns an image of the input
shape whose channels equal the input, here evaluated on an all-ones image. -/
theorem RKimage_negative_iter_returns_input :
    (RKimage idOp onesImg 0 1 (-1)).rows = 1 ∧
    (RKimage idOp onesImg 0 1 (-1)).cols = 1 ∧
    (RKimage idOp onesImg 0 1 (-1)).depth = 3 ∧
    (RKimage idOp onesImg 0 1 (-1)).entry 0 0 0 = 1 ∧
    (RKimage idOp onesImg 0 1 (-1)).entry 0 0 1 = 1 ∧
    (RKimage idOp onesImg 0 1 (-1)).entry 0 0 2 = 1 :=
  ⟨rfl, rfl, rfl, rfl, rfl, rfl⟩

/-- C8 amended: for every operator, image of shape (l, c, 3), t0 and h, calling the
integrator with nbiter <= 0 performs no iterations and returns the input image
unchanged: the Python range over a non-positive count is empty, no InvalidParameters
error is raised, and the operator is never invoked. -/
theorem RKimage_nonpositive_iter_identity {α : Type} [Field α] (g : α → Arr α → Arr α)
    (U0 : Img α) (t0 h : α) (nbiter : Int) (hn : nbiter ≤ 0) (hd : U0.depth = 3) :
    (RKimage g U0 t0 h nbiter).rows = U0.rows ∧
    (RKimage g U0 t0 h nbiter).cols = U0.cols ∧
    (RKimage g U0 t0 h nbiter).depth = U0.depth ∧
    ∀ i j k, k < U0.depth → (RKimage g U0 t0 h nbiter).entry i j k = U0.entry i j k := by
  refine ⟨rfl, rfl, rfl, fun i j k hk => ?_⟩
  have hk3 : k < 3 := hd ▸ hk
  show (if k < 3 then (rk4iter g t0 h nbiter.toNat (U0.channel k)).entry i j else 0) =
    U0.entry i j k
  rw [if_pos hk3, Int.toNat_of_nonpos hn]
  rfl

theorem RKimage_nonpositive_iter_identity_witness :
    (-7 : Int) ≤ 0 ∧ testImg.depth = 3 ∧
    ((RKimage idOp testImg 0 1 (-7)).rows = testImg.rows ∧
     (RKimage idOp testImg 0 1 (-7)).cols = testImg.cols ∧
     (RKimage idOp testImg 0 1 (-7)).depth = testImg.depth ∧
     ∀ i j k, k < testImg.depth →
       (RKimage idOp testImg 0 1 (-7)).entry i j k = testImg.entry i j k) :=
  ⟨by decide, rfl, RKimage_nonpositive_iter_identity idOp testImg 0 1 (-7) (by decide) rfl⟩
